import Mathlib

/-!
Shallow embedding of the SMF recording core of `arecordmidi.c`: the chunked
track buffer (`add_byte`), the variable-length-quantity encoder (`var_value`,
`var_value_direct`), delta-time and running-status tracking (`delta_time`,
`command`), the per-event translator (`record_event`), and the finalization
path (`write_track_end`, `update_length`).  Machine integers are modelled as
`Nat`/`Int`; MIDI bytes are `Nat` values below 256.  C's arithmetic right
shift on `int` is `Int.fdiv` by a power of two, and C's `& mask` on an `int`
is `Int.emod` (`%`) by `mask+1`.
-/

namespace Arecordmidi

/-- Fixed capacity of one buffer chunk (`BUFFER_SIZE` in the source). -/
def BUFFER_SIZE : Nat := 4088

/-- The track state (`struct smf_track`): total byte count of the body, the
used size of the current chunk, the completed chunks, the current chunk
(its logically used prefix only), the tick at which the last event was
encoded, and the last status byte written (0 encodes "none", matching the
zero-initialized global). -/
structure smf_track where
  size : Nat
  cur_buf_size : Nat
  done_bufs : List (List Nat)
  cur_buf : List Nat
  last_tick : Int
  last_command : Nat

/-- All bytes stored in the track body, in append order: the completed
chunks followed by the used prefix of the current chunk. -/
def sinkBytes (t : smf_track) : List Nat :=
  t.done_bufs.flatten ++ t.cur_buf

/-- Initial track state: zeroed counters and the one empty head chunk
(`static struct smf_track track = { }` plus `init_tracks`). -/
def initTrack : smf_track :=
  { size := 0, cur_buf_size := 0, done_bufs := [], cur_buf := [],
    last_tick := 0, last_command := 0 }

/-- `add_byte`: records one byte, moving to a freshly allocated chunk when
the current chunk is full (`cur_buf_size >= BUFFER_SIZE`). -/
def add_byte (t : smf_track) (byte : Nat) : smf_track :=
  if BUFFER_SIZE ≤ t.cur_buf_size then
    { t with
        done_bufs := t.done_bufs ++ [t.cur_buf]
        cur_buf := [byte]
        cur_buf_size := 1
        size := t.size + 1 }
  else
    { t with
        cur_buf := t.cur_buf ++ [byte]
        cur_buf_size := t.cur_buf_size + 1
        size := t.size + 1 }

/-- Pure rendering of the byte sequence produced by the `var_value`
emission ladder for an `int` argument `v`: a continuation byte
`0x80 | ((v>>28)&0x03)` when `v >= 1<<28`, then `0x80 | ((v>>21)&0x7f)` when
`v >= 1<<21`, then likewise for `1<<14` and `1<<7`, and always the final
byte `v & 0x7f`. -/
def var_bytes (v : Int) : List Nat :=
  (if (2 ^ 28 : Int) ≤ v then [0x80 ||| ((v.fdiv (2 ^ 28) % 0x04).toNat)] else [])
    ++ (if (2 ^ 21 : Int) ≤ v then [0x80 ||| ((v.fdiv (2 ^ 21) % 0x80).toNat)] else [])
    ++ (if (2 ^ 14 : Int) ≤ v then [0x80 ||| ((v.fdiv (2 ^ 14) % 0x80).toNat)] else [])
    ++ (if (2 ^ 7 : Int) ≤ v then [0x80 ||| ((v.fdiv (2 ^ 7) % 0x80).toNat)] else [])
    ++ [(v % 0x80).toNat]

/-- `var_value`: records a variable-length quantity into the track via
`add_byte`, one conditional continuation byte per ladder rung. -/
def var_value (t : smf_track) (v : Int) : smf_track :=
  let t :=
    if (2 ^ 28 : Int) ≤ v then add_byte t (0x80 ||| ((v.fdiv (2 ^ 28) % 0x04).toNat)) else t
  let t :=
    if (2 ^ 21 : Int) ≤ v then add_byte t (0x80 ||| ((v.fdiv (2 ^ 21) % 0x80).toNat)) else t
  let t :=
    if (2 ^ 14 : Int) ≤ v then add_byte t (0x80 ||| ((v.fdiv (2 ^ 14) % 0x80).toNat)) else t
  let t :=
    if (2 ^ 7 : Int) ≤ v then add_byte t (0x80 ||| ((v.fdiv (2 ^ 7) % 0x80).toNat)) else t
  add_byte t ((v % 0x80).toNat)

/-- `delta_time`: expresses the event's tick relative to the recording
origin `t_start`, clamps a negative difference from `last_tick` to zero,
records it as a VLQ and advances `last_tick` unconditionally. -/
def delta_time (t_start : Int) (t : smf_track) (ev_tick : Int) : smf_track :=
  let tick : Int := ev_tick - t_start
  let diff : Int := tick - t.last_tick
  let diff := if diff < 0 then 0 else diff
  let t := var_value t diff
  { t with last_tick := tick }

/-- `command`: writes a status byte unless it equals the stored
`last_command` (running status); stores it back, resetting to 0 ("none")
for system/meta status bytes `>= 0xf0`. -/
def command (t : smf_track) (cmd : Nat) : smf_track :=
  let t := if cmd ≠ t.last_command then add_byte t cmd else t
  { t with last_command := if cmd < 0xf0 then cmd else 0 }

/-- Kind-specific payload of a sequencer event, one constructor per
`SND_SEQ_EVENT_*` case handled by `record_event`; `other` stands for every
event type that falls into the `default` arm.  Channels, notes, velocities
and controller parameters are unsigned in ALSA and modelled as `Nat`;
controller values are signed `int`s and modelled as `Int`. -/
inductive SeqEventData where
  | noteon (channel note velocity : Nat)
  | noteoff (channel note velocity : Nat)
  | keypress (channel note velocity : Nat)
  | controller (channel param : Nat) (value : Int)
  | pgmchange (channel : Nat) (value : Int)
  | chanpress (channel : Nat) (value : Int)
  | pitchbend (channel : Nat) (value : Int)
  | control14 (channel param : Nat) (value : Int)
  | nonregparam (channel param : Nat) (value : Int)
  | regparam (channel param : Nat) (value : Int)
  | sysex (payload : List Nat)
  | other

/-- An incoming sequencer event: its queue tick timestamp, whether it
carries a proper tick timestamp from our queue (`ev->queue == queue &&
snd_seq_ev_is_tick(ev)`), its destination port, and its payload. -/
structure snd_seq_event where
  tick : Int
  queue_ok : Bool
  dest_port : Nat
  data : SeqEventData

/-- Recorder state threaded through `record_event`: the globals `t_start`
(recording time origin, 0 when not yet captured) and `track`. -/
structure RecState where
  t_start : Int
  track : smf_track

/-- Initial recorder state at the start of a recording session. -/
def initRecState : RecState :=
  { t_start := 0, track := initTrack }

/-- `record_event`: drops events without a proper tick timestamp, captures
`t_start` on the first event seen (sentinel `t_start == 0`), drops events
for a destination port other than 0, then translates the event by kind
into delta-time, status and data bytes exactly as the source's `switch`. -/
def record_event (s : RecState) (ev : snd_seq_event) : RecState :=
  if ev.queue_ok = false then s
  else
    let s := if s.t_start = 0 then { s with t_start := ev.tick } else s
    if ev.dest_port ≠ 0 then s
    else
      match ev.data with
      | .noteon channel note velocity =>
        let t := delta_time s.t_start s.track ev.tick
        let t := command t (0x90 ||| (channel &&& 0xf))
        let t := add_byte t (note &&& 0x7f)
        let t := add_byte t (velocity &&& 0x7f)
        { s with track := t }
      | .noteoff channel note velocity =>
        let t := delta_time s.t_start s.track ev.tick
        let t := command t (0x80 ||| (channel &&& 0xf))
        let t := add_byte t (note &&& 0x7f)
        let t := add_byte t (velocity &&& 0x7f)
        { s with track := t }
      | .keypress channel note velocity =>
        let t := delta_time s.t_start s.track ev.tick
        let t := command t (0xa0 ||| (channel &&& 0xf))
        let t := add_byte t (note &&& 0x7f)
        let t := add_byte t (velocity &&& 0x7f)
        { s with track := t }
      | .controller channel param value =>
        let t := delta_time s.t_start s.track ev.tick
        let t := command t (0xb0 ||| (channel &&& 0xf))
        let t := add_byte t (param &&& 0x7f)
        let t := add_byte t ((value % 0x80).toNat)
        { s with track := t }
      | .pgmchange channel value =>
        let t := delta_time s.t_start s.track ev.tick
        let t := command t (0xc0 ||| (channel &&& 0xf))
        let t := add_byte t ((value % 0x80).toNat)
        { s with track := t }
      | .chanpress channel value =>
        let t := delta_time s.t_start s.track ev.tick
        let t := command t (0xd0 ||| (channel &&& 0xf))
        let t := add_byte t ((value % 0x80).toNat)
        { s with track := t }
      | .pitchbend channel value =>
        let t := delta_time s.t_start s.track ev.tick
        let t := command t (0xe0 ||| (channel &&& 0xf))
        let t := add_byte t (((value + 8192) % 0x80).toNat)
        let t := add_byte t ((((value + 8192).fdiv (2 ^ 7)) % 0x80).toNat)
        { s with track := t }
      | .control14 channel param value =>
        let t := delta_time s.t_start s.track ev.tick
        let t := command t (0xb0 ||| (channel &&& 0xf))
        let t := add_byte t (param &&& 0x7f)
        let t := add_byte t (((value.fdiv (2 ^ 7)) % 0x80).toNat)
        let t :=
          if param &&& 0x7f < 0x20 then
            let t := delta_time s.t_start t ev.tick
            let t := add_byte t ((param &&& 0x7f) + 0x20)
            add_byte t ((value % 0x80).toNat)
          else t
        { s with track := t }
      | .nonregparam channel param value =>
        let t := delta_time s.t_start s.track ev.tick
        let t := command t (0xb0 ||| (channel &&& 0xf))
        let t := add_byte t 0x62
        let t := add_byte t (param &&& 0x7f)
        let t := delta_time s.t_start t ev.tick
        let t := add_byte t 0x63
        let t := add_byte t ((param >>> 7) &&& 0x7f)
        let t := delta_time s.t_start t ev.tick
        let t := add_byte t 0x06
        let t := add_byte t (((value.fdiv (2 ^ 7)) % 0x80).toNat)
        let t := delta_time s.t_start t ev.tick
        let t := add_byte t 0x26
        let t := add_byte t ((value % 0x80).toNat)
        { s with track := t }
      | .regparam channel param value =>
        let t := delta_time s.t_start s.track ev.tick
        let t := command t (0xb0 ||| (channel &&& 0xf))
        let t := add_byte t 0x64
        let t := add_byte t (param &&& 0x7f)
        let t := delta_time s.t_start t ev.tick
        let t := add_byte t 0x65
        let t := add_byte t ((param >>> 7) &&& 0x7f)
        let t := delta_time s.t_start t ev.tick
        let t := add_byte t 0x06
        let t := add_byte t (((value.fdiv (2 ^ 7)) % 0x80).toNat)
        let t := delta_time s.t_start t ev.tick
        let t := add_byte t 0x26
        let t := add_byte t ((value % 0x80).toNat)
        { s with track := t }
      | .sysex payload =>
        match payload with
        | [] => s
        | b :: _ =>
          let t := delta_time s.t_start s.track ev.tick
          let t := command t (if b = 0xf0 then 0xf0 else 0xf7)
          let t := var_value t (payload.length : Int)
          let t := payload.foldl add_byte t
          { s with track := t }
      | .other => s

/-- `var_value_direct`: the finalization-path VLQ writer; emits the same
ladder as `var_value` but straight to the file, returning the bytes written
paired with the running `extra_size` count (one increment per `fputc`). -/
def var_value_direct (v : Int) : List Nat × Nat :=
  let r1 : List Nat × Nat :=
    if (2 ^ 28 : Int) ≤ v then ([0x80 ||| ((v.fdiv (2 ^ 28) % 0x04).toNat)], 1) else ([], 0)
  let r2 : List Nat × Nat :=
    if (2 ^ 21 : Int) ≤ v then ([0x80 ||| ((v.fdiv (2 ^ 21) % 0x80).toNat)], 1) else ([], 0)
  let r3 : List Nat × Nat :=
    if (2 ^ 14 : Int) ≤ v then ([0x80 ||| ((v.fdiv (2 ^ 14) % 0x80).toNat)], 1) else ([], 0)
  let r4 : List Nat × Nat :=
    if (2 ^ 7 : Int) ≤ v then ([0x80 ||| ((v.fdiv (2 ^ 7) % 0x80).toNat)], 1) else ([], 0)
  (r1.1 ++ r2.1 ++ r3.1 ++ r4.1 ++ [(v % 0x80).toNat], r1.2 + r2.2 + r3.2 + r4.2 + 1)

/-- `write_track_end`: the finalization epilogue written directly to the
file once the queue reports the final tick position: one last delta-time
VLQ (`tick - track.last_tick`), the end-of-track meta bytes `FF 2F`, and a
zero VLQ (`00`); returns the bytes and the accumulated `extra_size`. -/
def write_track_end (tick : Int) (t : smf_track) : List Nat × Nat :=
  let r1 := var_value_direct (tick - t.last_tick)
  let r2 := var_value_direct 0
  (r1.1 ++ [0xff, 0x2f] ++ r2.1, r1.2 + 2 + r2.2)

/-- `update_length`: the four bytes written back at the reserved length
offset for a final size value, big-endian, as four masked `fputc` calls. -/
def update_length_bytes (size : Nat) : List Nat :=
  [(size >>> 24) &&& 0xff, (size >>> 16) &&& 0xff, (size >>> 8) &&& 0xff, size &&& 0xff]

/-- The unsigned big-endian integer denoted by a byte list (how a reader of
the file interprets the patched 4-byte length field). -/
def decodeBE4 (bytes : List Nat) : Nat :=
  bytes.foldl (fun a b => a * 256 + b) 0

/-- Structural invariant of the chunked sink: `size` counts exactly the
bytes in the body, every completed chunk is full, and the current chunk's
used prefix has length `cur_buf_size`, at most one chunk's capacity. -/
def trackInv (t : smf_track) : Prop :=
  t.size = (t.done_bufs.map List.length).sum + t.cur_buf.length
    ∧ (∀ c ∈ t.done_bufs, c.length = BUFFER_SIZE)
    ∧ t.cur_buf.length = t.cur_buf_size
    ∧ t.cur_buf_size ≤ BUFFER_SIZE

instance (t : smf_track) : Decidable (trackInv t) := by
  unfold trackInv
  infer_instance

theorem sinkBytes_add_byte (t : smf_track) (b : Nat) :
    sinkBytes (add_byte t b) = sinkBytes t ++ [b] := by
  unfold add_byte sinkBytes
  split <;> simp

theorem last_tick_add_byte (t : smf_track) (b : Nat) :
    (add_byte t b).last_tick = t.last_tick := by
  unfold add_byte; split <;> rfl

theorem last_command_add_byte (t : smf_track) (b : Nat) :
    (add_byte t b).last_command = t.last_command := by
  unfold add_byte; split <;> rfl

theorem size_add_byte (t : smf_track) (b : Nat) :
    (add_byte t b).size = t.size + 1 := by
  unfold add_byte; split <;> rfl

theorem sinkBytes_var_value (t : smf_track) (v : Int) :
    sinkBytes (var_value t v) = sinkBytes t ++ var_bytes v := by
  unfold var_value var_bytes
  split_ifs <;> simp [sinkBytes_add_byte, List.append_assoc]

theorem last_tick_var_value (t : smf_track) (v : Int) :
    (var_value t v).last_tick = t.last_tick := by
  unfold var_value
  split_ifs <;> simp [last_tick_add_byte]

theorem last_command_var_value (t : smf_track) (v : Int) :
    (var_value t v).last_command = t.last_command := by
  unfold var_value
  split_ifs <;> simp [last_command_add_byte]

theorem sinkBytes_delta_time (ts : Int) (t : smf_track) (et : Int) :
    sinkBytes (delta_time ts t et)
      = sinkBytes t ++ var_bytes (max 0 ((et - ts) - t.last_tick)) := by
  unfold delta_time
  have h : (if (et - ts) - t.last_tick < 0 then (0 : Int) else (et - ts) - t.last_tick)
      = max 0 ((et - ts) - t.last_tick) := by
    split <;> omega
  simp only [h]
  simpa [sinkBytes] using sinkBytes_var_value t (max 0 ((et - ts) - t.last_tick))

theorem last_tick_delta_time (ts : Int) (t : smf_track) (et : Int) :
    (delta_time ts t et).last_tick = et - ts := by
  unfold delta_time; rfl

theorem last_command_delta_time (ts : Int) (t : smf_track) (et : Int) :
    (delta_time ts t et).last_command = t.last_command := by
  unfold delta_time
  simp only [last_command_var_value]

theorem sinkBytes_command (t : smf_track) (cmd : Nat) :
    sinkBytes (command t cmd)
      = sinkBytes t ++ (if cmd = t.last_command then [] else [cmd]) := by
  unfold command
  by_cases h : cmd = t.last_command
  · simp [h, sinkBytes]
  · simp only [h, if_neg, ne_eq, not_false_iff, if_true]
    simpa [sinkBytes, h] using sinkBytes_add_byte t cmd

theorem last_tick_command (t : smf_track) (cmd : Nat) :
    (command t cmd).last_tick = t.last_tick := by
  unfold command
  by_cases h : cmd = t.last_command <;> simp [h, last_tick_add_byte]

theorem last_command_command (t : smf_track) (cmd : Nat) :
    (command t cmd).last_command = if cmd < 0xf0 then cmd else 0 := by
  unfold command
  by_cases h : cmd = t.last_command <;> simp [h]

theorem length_sinkBytes (t : smf_track) :
    (sinkBytes t).length = (t.done_bufs.map List.length).sum + t.cur_buf.length := by
  simp [sinkBytes]

theorem var_value_direct_spec (v : Int) :
    (var_value_direct v).1 = var_bytes v
      ∧ (var_value_direct v).2 = (var_bytes v).length := by
  unfold var_value_direct var_bytes
  split_ifs <;> simp

theorem var_bytes_zero : var_bytes 0 = [0x00] := by decide

theorem sinkBytes_foldl_add_byte (bs : List Nat) (t : smf_track) :
    sinkBytes (bs.foldl add_byte t) = sinkBytes t ++ bs := by
  induction bs generalizing t with
  | nil => simp
  | cons b bs ih => simp [List.foldl_cons, ih, sinkBytes_add_byte]

theorem last_tick_foldl_add_byte (bs : List Nat) (t : smf_track) :
    (bs.foldl add_byte t).last_tick = t.last_tick := by
  induction bs generalizing t with
  | nil => rfl
  | cons b bs ih => simp [List.foldl_cons, ih, last_tick_add_byte]

theorem last_command_foldl_add_byte (bs : List Nat) (t : smf_track) :
    (bs.foldl add_byte t).last_command = t.last_command := by
  induction bs generalizing t with
  | nil => rfl
  | cons b bs ih => simp [List.foldl_cons, ih, last_command_add_byte]

theorem and_mask_eq_mod (x k : Nat) : x &&& (2 ^ k - 1) = x % 2 ^ k :=
  Nat.and_pow_two_sub_one_eq_mod x k

theorem and_fifteen_lt (x : Nat) : x &&& 0xf < 16 := by
  have h := and_mask_eq_mod x 4
  norm_num at h
  omega

theorem and_sevenf_eq_of_lt (x : Nat) (h : x < 0x80) : x &&& 0x7f = x := by
  have hm := and_mask_eq_mod x 7
  norm_num at hm
  omega

theorem noteon_status_lt (channel : Nat) : 0x90 ||| (channel &&& 0xf) < 0xf0 := by
  have h16 := and_fifteen_lt channel
  set y := channel &&& 0xf with hy
  interval_cases y <;> decide

theorem control_status_lt (channel : Nat) : 0xb0 ||| (channel &&& 0xf) < 0xf0 := by
  have h16 := and_fifteen_lt channel
  set y := channel &&& 0xf with hy
  interval_cases y <;> decide

theorem decodeBE4_update_length_bytes (s : Nat) (h : s < 2 ^ 32) :
    decodeBE4 (update_length_bytes s) = s := by
  have hm : ∀ x : Nat, x &&& 0xff = x % 256 := by
    intro x
    have := and_mask_eq_mod x 8
    norm_num at this
    exact this
  simp only [decodeBE4, update_length_bytes, Nat.shiftRight_eq_div_pow, hm, List.foldl]
  norm_num
  omega

theorem record_event_noteon (s : RecState) (ev : snd_seq_event)
    (channel note velocity : Nat)
    (hq : ev.queue_ok = true) (hp : ev.dest_port = 0)
    (hd : ev.data = SeqEventData.noteon channel note velocity)
    (hts : s.t_start ≠ 0) :
    (record_event s ev).t_start = s.t_start
      ∧ sinkBytes (record_event s ev).track
          = sinkBytes s.track
            ++ var_bytes (max 0 ((ev.tick - s.t_start) - s.track.last_tick))
            ++ (if 0x90 ||| (channel &&& 0xf) = s.track.last_command then []
                else [0x90 ||| (channel &&& 0xf)])
            ++ [note &&& 0x7f]
            ++ [velocity &&& 0x7f]
      ∧ (record_event s ev).track.last_tick = ev.tick - s.t_start
      ∧ (record_event s ev).track.last_command = 0x90 ||| (channel &&& 0xf) := by
  have hlt := noteon_status_lt channel
  unfold record_event
  simp only [hq, hd, hp, hts, Bool.true_eq_false, if_false, if_neg, ite_false,
    ne_eq, not_true_eq_false, not_false_eq_true]
  refine ⟨trivial, ?_, ?_, ?_⟩
  · simp [sinkBytes_add_byte, sinkBytes_command, sinkBytes_delta_time,
      last_command_delta_time, List.append_assoc]
  · simp [last_tick_add_byte, last_tick_command, last_tick_delta_time]
  · simp [last_command_add_byte, last_command_command, hlt]

/-- Claim C2: for each of the boundary values 0, 127, 128, 16383, 16384,
2097151, 2097152 and 268435455, the VLQ encoder `var_value` emits exactly
the canonical MIDI variable-length-quantity encoding, of 1, 1, 2, 2, 3, 3,
4 and 4 bytes respectively, following the fixed emission ladder. -/
theorem vlq_boundary_encodings :
    sinkBytes (var_value initTrack 0) = [0x00]
      ∧ sinkBytes (var_value initTrack 127) = [0x7f]
      ∧ sinkBytes (var_value initTrack 128) = [0x81, 0x00]
      ∧ sinkBytes (var_value initTrack 16383) = [0xff, 0x7f]
      ∧ sinkBytes (var_value initTrack 16384) = [0x81, 0x80, 0x00]
      ∧ sinkBytes (var_value initTrack 2097151) = [0xff, 0xff, 0x7f]
      ∧ sinkBytes (var_value initTrack 2097152) = [0x81, 0x80, 0x80, 0x00]
      ∧ sinkBytes (var_value initTrack 268435455) = [0xff, 0xff, 0xff, 0x7f] := by
  decide

/-- Claim C4: for every tick value passed to the delta computation,
including a tick lower than the previously recorded one, the emitted
delta-time equals `max 0 (tick - last_tick)` (ticks expressed relative to
the origin `ts`), hence is never negative, and `last_tick` is then set to
the new tick unconditionally, even when it is smaller. -/
theorem delta_time_clamps_and_advances (ts : Int) (t : smf_track) (et : Int) :
    sinkBytes (delta_time ts t et)
        = sinkBytes t ++ var_bytes (max 0 ((et - ts) - t.last_tick))
      ∧ 0 ≤ max 0 ((et - ts) - t.last_tick)
      ∧ (delta_time ts t et).last_tick = et - ts :=
  ⟨sinkBytes_delta_time ts t et, le_max_left 0 _, last_tick_delta_time ts t et⟩

/-- Counterexample to claim C6 as stated: at the non-negative `int` input
`2^28` the encoder emits five bytes, not between one and four: the
`v >= 1<<28` rung fires together with all three lower rungs and the final
byte. -/
theorem vlq_five_bytes_at_two_pow_28 :
    (0 : Int) ≤ 2 ^ 28
      ∧ sinkBytes (var_value initTrack (2 ^ 28)) = [0x81, 0x80, 0x80, 0x80, 0x00]
      ∧ ¬ (sinkBytes (var_value initTrack (2 ^ 28))).length ≤ 4 := by
  decide

/-- Claim C6 amended: for every non-negative integer `v` below `2^28` the
VLQ encoder emits between 1 and 4 bytes inclusive (at `2^28` and above a
fifth, top-rung byte is also emitted). -/
theorem vlq_length_bounds (t : smf_track) (v : Int) (h0 : 0 ≤ v)
    (h1 : v < 2 ^ 28) :
    sinkBytes (var_value t v) = sinkBytes t ++ var_bytes v
      ∧ 1 ≤ (var_bytes v).length ∧ (var_bytes v).length ≤ 4 := by
  refine ⟨sinkBytes_var_value t v, ?_, ?_⟩ <;>
  · unfold var_bytes
    rw [if_neg (by omega)]
    split_ifs <;> simp

/-- Witness for the amended claim C6 at `v = 3`. -/
theorem vlq_length_bounds_witness :
    sinkBytes (var_value initTrack 3) = sinkBytes initTrack ++ var_bytes 3
      ∧ 1 ≤ (var_bytes 3).length ∧ (var_bytes 3).length ≤ 4 :=
  vlq_length_bounds initTrack 3 (by decide) (by decide)

/-- Claim C8: `add_byte` preserves the sink invariant — `size` equals the
byte count of the body, every chunk before the current one holds exactly
`BUFFER_SIZE` bytes and the current chunk holds its logically used
prefix — and appending one byte grows both `size` and the body by exactly
one byte. -/
theorem add_byte_invariant (t : smf_track) (b : Nat) (h : trackInv t) :
    trackInv (add_byte t b)
      ∧ (add_byte t b).size = t.size + 1
      ∧ sinkBytes (add_byte t b) = sinkBytes t ++ [b] := by
  obtain ⟨hsz, hfull, hcur, hle⟩ := h
  refine ⟨?_, size_add_byte t b, sinkBytes_add_byte t b⟩
  unfold add_byte trackInv
  split_ifs with hge
  · refine ⟨?_, ?_, rfl, by norm_num [BUFFER_SIZE]⟩
    · simp only [List.map_append, List.map_cons, List.map_nil, List.sum_append,
        List.sum_cons, List.sum_nil, List.length_cons, List.length_nil]
      omega
    · intro c hc
      rcases List.mem_append.mp hc with hc | hc
      · exact hfull c hc
      · rcases List.mem_singleton.mp hc with rfl
        omega
  · refine ⟨?_, hfull, ?_, ?_⟩
    · show t.size + 1 = (t.done_bufs.map List.length).sum + (t.cur_buf ++ [b]).length
      simp only [List.length_append, List.length_cons, List.length_nil]
      omega
    · show (t.cur_buf ++ [b]).length = t.cur_buf_size + 1
      simp only [List.length_append, List.length_cons, List.length_nil]
      omega
    · show t.cur_buf_size + 1 ≤ BUFFER_SIZE
      omega

/-- Witness for claim C8: the invariant holds of the empty track and is
preserved when the first byte is appended. -/
theorem add_byte_invariant_witness :
    trackInv (add_byte initTrack 0x42)
      ∧ (add_byte initTrack 0x42).size = initTrack.size + 1
      ∧ sinkBytes (add_byte initTrack 0x42) = sinkBytes initTrack ++ [0x42] :=
  add_byte_invariant initTrack 0x42 (by decide)

/-- Claim C9: an event of an unrecognized kind, and a SysEx event with an
empty payload, emit zero bytes into the track, never raise an error
(`record_event` is total), and leave `last_tick` and `last_command`
unchanged. -/
theorem ignored_events_emit_nothing (s : RecState) (ev : snd_seq_event)
    (h : ev.data = SeqEventData.other ∨ ev.data = SeqEventData.sysex []) :
    sinkBytes (record_event s ev).track = sinkBytes s.track
      ∧ (record_event s ev).track.last_tick = s.track.last_tick
      ∧ (record_event s ev).track.last_command = s.track.last_command := by
  have htrack : (record_event s ev).track = s.track := by
    unfold record_event
    rcases hq : ev.queue_ok with _ | _
    · simp [hq]
    · rcases h with h | h <;> rw [h] <;> simp only [hq] <;> split_ifs <;> rfl
  rw [htrack]
  exact ⟨rfl, rfl, rfl⟩

/-- Witness for claim C9 on a concrete unrecognized event. -/
theorem ignored_events_emit_nothing_witness :
    sinkBytes (record_event initRecState ⟨17, true, 0, SeqEventData.other⟩).track
        = sinkBytes initRecState.track
      ∧ (record_event initRecState ⟨17, true, 0, SeqEventData.other⟩).track.last_tick
          = initRecState.track.last_tick
      ∧ (record_event initRecState ⟨17, true, 0, SeqEventData.other⟩).track.last_command
          = initRecState.track.last_command :=
  ignored_events_emit_nothing initRecState ⟨17, true, 0, SeqEventData.other⟩ (Or.inl rfl)

/-- Claim C1: the 4-byte big-endian value patched at the reserved
track-length offset equals the count of body bytes buffered in the sink
plus the count of epilogue bytes written by finalization (the final
delta-time VLQ followed by the end-of-track meta event), i.e. the patched
length equals `N + 3` for a track of `N` encoded content bytes plus the
3-byte terminator `FF 2F 00`, the terminator being the final bytes of the
track body and included in the length. -/
theorem patched_length_correct (t : smf_track) (final_tick : Int)
    (hinv : trackInv t)
    (hbound : t.size + (write_track_end final_tick t).2 < 2 ^ 32) :
    decodeBE4 (update_length_bytes (t.size + (write_track_end final_tick t).2))
        = (sinkBytes t).length + (write_track_end final_tick t).1.length
      ∧ (write_track_end final_tick t).1
          = var_bytes (final_tick - t.last_tick) ++ [0xff, 0x2f, 0x00]
      ∧ (sinkBytes t).length + (write_track_end final_tick t).1.length
          = ((sinkBytes t).length + (var_bytes (final_tick - t.last_tick)).length) + 3 := by
  obtain ⟨h11, h12⟩ := var_value_direct_spec (final_tick - t.last_tick)
  have hepi : (write_track_end final_tick t).1
      = var_bytes (final_tick - t.last_tick) ++ [0xff, 0x2f, 0x00] := by
    simp only [write_track_end]
    rw [h11]
    have : var_value_direct 0 = ([0x00], 1) := by decide
    rw [this]
    simp
  have hextra : (write_track_end final_tick t).2
      = (var_bytes (final_tick - t.last_tick)).length + 3 := by
    simp only [write_track_end]
    rw [h12]
    have : var_value_direct 0 = ([0x00], 1) := by decide
    rw [this]
    omega
  have hlen : (write_track_end final_tick t).1.length
      = (var_bytes (final_tick - t.last_tick)).length + 3 := by
    rw [hepi]
    simp
  have hsize : t.size = (sinkBytes t).length := by
    rw [length_sinkBytes]
    exact hinv.1
  refine ⟨?_, hepi, by omega⟩
  rw [decodeBE4_update_length_bytes _ hbound]
  omega

/-- Witness for claim C1 on the empty track with final tick 5. -/
theorem patched_length_correct_witness :
    decodeBE4 (update_length_bytes (initTrack.size + (write_track_end 5 initTrack).2))
        = (sinkBytes initTrack).length + (write_track_end 5 initTrack).1.length
      ∧ (write_track_end 5 initTrack).1
          = var_bytes (5 - initTrack.last_tick) ++ [0xff, 0x2f, 0x00]
      ∧ (sinkBytes initTrack).length + (write_track_end 5 initTrack).1.length
          = ((sinkBytes initTrack).length
              + (var_bytes (5 - initTrack.last_tick)).length) + 3 :=
  patched_length_correct initTrack 5 (by decide) (by decide)

/-- Claim C3: two consecutive NoteOn events on the same channel write the
status byte at most once — the second event's status is suppressed by
running status — and writing any status byte `>= 0xf0` resets the stored
`last_command` to "none" (0), so the next channel-voice status byte is
re-emitted even when it equals the one written before the reset. -/
theorem running_status_suppression (s : RecState) (ev1 ev2 : snd_seq_event)
    (channel n1 v1 n2 v2 : Nat)
    (hts : s.t_start ≠ 0)
    (hq1 : ev1.queue_ok = true) (hp1 : ev1.dest_port = 0)
    (hd1 : ev1.data = SeqEventData.noteon channel n1 v1)
    (hq2 : ev2.queue_ok = true) (hp2 : ev2.dest_port = 0)
    (hd2 : ev2.data = SeqEventData.noteon channel n2 v2) :
    sinkBytes (record_event (record_event s ev1) ev2).track
        = sinkBytes (record_event s ev1).track
          ++ var_bytes (max 0 (ev2.tick - ev1.tick))
          ++ [n2 &&& 0x7f]
          ++ [v2 &&& 0x7f]
      ∧ (∀ t f c, 0xf0 ≤ f → 0x80 ≤ c → c < 0xf0 →
          (command t f).last_command = 0
            ∧ sinkBytes (command (command t f) c)
                = sinkBytes (command t f) ++ [c]) := by
  obtain ⟨ht1, _, hlt1, hlc1⟩ := record_event_noteon s ev1 channel n1 v1 hq1 hp1 hd1 hts
  have hts1 : (record_event s ev1).t_start ≠ 0 := by rw [ht1]; exact hts
  obtain ⟨_, hb2, _, _⟩ :=
    record_event_noteon (record_event s ev1) ev2 channel n2 v2 hq2 hp2 hd2 hts1
  constructor
  · rw [hb2, ht1, hlt1, hlc1, if_pos rfl]
    have harith : ev2.tick - s.t_start - (ev1.tick - s.t_start) = ev2.tick - ev1.tick := by
      ring
    rw [harith]
    simp
  · intro t f c hf hc1 hc2
    have h0 : (command t f).last_command = 0 := by
      rw [last_command_command, if_neg (by omega)]
    refine ⟨h0, ?_⟩
    rw [sinkBytes_command (command t f) c, h0, if_neg (by omega)]

/-- Witness for claim C3: two NoteOn events on channel 3 at ticks 7 and
10 from an origin of 5; the second event's status byte is suppressed. -/
theorem running_status_suppression_witness :
    sinkBytes (record_event (record_event ⟨5, initTrack⟩ ⟨7, true, 0, SeqEventData.noteon 3 60 100⟩)
        ⟨10, true, 0, SeqEventData.noteon 3 64 90⟩).track
      = sinkBytes (record_event ⟨5, initTrack⟩ ⟨7, true, 0, SeqEventData.noteon 3 60 100⟩).track
        ++ var_bytes (max 0 ((10 : Int) - 7))
        ++ [64 &&& 0x7f]
        ++ [90 &&& 0x7f] := by
  exact (running_status_suppression ⟨5, initTrack⟩
    ⟨7, true, 0, SeqEventData.noteon 3 60 100⟩ ⟨10, true, 0, SeqEventData.noteon 3 64 90⟩
    3 60 100 64 90 (by decide) rfl rfl rfl rfl rfl rfl).1

/-- Claim C7: a Controller14 event with `param < 0x20` emits exactly two
controller sub-messages at the same tick — the first carrying data bytes
`param` and `(value >> 7) & 0x7f`, the second carrying `param + 0x20` and
`value & 0x7f` — each half preceded by its own delta-time, the second
half's delta-time being 0. -/
theorem control14_two_halves (s : RecState) (ev : snd_seq_event)
    (channel param : Nat) (value : Int)
    (hq : ev.queue_ok = true) (hp : ev.dest_port = 0)
    (hd : ev.data = SeqEventData.control14 channel param value)
    (hlt : param < 0x20) :
    sinkBytes (record_event s ev).track
        = sinkBytes s.track
          ++ var_bytes (max 0 ((ev.tick - (if s.t_start = 0 then ev.tick else s.t_start))
              - s.track.last_tick))
          ++ (if 0xb0 ||| (channel &&& 0xf) = s.track.last_command then []
              else [0xb0 ||| (channel &&& 0xf)])
          ++ [param]
          ++ [((value.fdiv (2 ^ 7)) % 0x80).toNat]
          ++ [0x00]
          ++ [param + 0x20]
          ++ [(value % 0x80).toNat]
      ∧ (record_event s ev).track.last_tick
          = ev.tick - (if s.t_start = 0 then ev.tick else s.t_start) := by
  have hm : param &&& 0x7f = param := and_sevenf_eq_of_lt param (by omega)
  unfold record_event
  simp only [hq, hd, Bool.true_eq_false, if_false, hp, ite_false, ne_eq,
    not_true_eq_false, not_false_eq_true, hm]
  rw [if_pos hlt]
  by_cases hts : s.t_start = 0 <;>
    simp [hts, sinkBytes_add_byte, sinkBytes_command, sinkBytes_delta_time,
      last_tick_add_byte, last_tick_command, last_tick_delta_time,
      last_command_delta_time, var_bytes_zero, List.append_assoc]

/-- Witness for claim C7: Controller14 on channel 2, `param = 3`,
`value = 300`, at tick 7 with origin 5. -/
theorem control14_two_halves_witness :
    sinkBytes (record_event ⟨5, initTrack⟩ ⟨7, true, 0, SeqEventData.control14 2 3 300⟩).track
        = [0x02, 0xb2, 0x03, 0x02, 0x00, 0x23, 0x2c]
      ∧ (record_event ⟨5, initTrack⟩
          ⟨7, true, 0, SeqEventData.control14 2 3 300⟩).track.last_tick = 2 := by
  obtain ⟨h1, h2⟩ := control14_two_halves ⟨5, initTrack⟩
    ⟨7, true, 0, SeqEventData.control14 2 3 300⟩ 2 3 300 rfl rfl rfl (by decide)
  exact ⟨h1.trans (by decide), h2.trans (by decide)⟩

/-- Claim C10: a Controller14 event with `(param & 0x7f) >= 0x20` emits
exactly one controller message — one delta-time, the status
`0xb0 | channel` subject to running-status suppression, then the data
bytes `param & 0x7f` and `(value >> 7) & 0x7f` — so only the upper seven
bits of the value are recorded and the low seven bits are discarded. -/
theorem control14_msb_only (s : RecState) (ev : snd_seq_event)
    (channel param : Nat) (value : Int)
    (hq : ev.queue_ok = true) (hp : ev.dest_port = 0)
    (hd : ev.data = SeqEventData.control14 channel param value)
    (hge : 0x20 ≤ param &&& 0x7f) :
    sinkBytes (record_event s ev).track
        = sinkBytes s.track
          ++ var_bytes (max 0 ((ev.tick - (if s.t_start = 0 then ev.tick else s.t_start))
              - s.track.last_tick))
          ++ (if 0xb0 ||| (channel &&& 0xf) = s.track.last_command then []
              else [0xb0 ||| (channel &&& 0xf)])
          ++ [param &&& 0x7f]
          ++ [((value.fdiv (2 ^ 7)) % 0x80).toNat]
      ∧ (record_event s ev).track.last_tick
          = ev.tick - (if s.t_start = 0 then ev.tick else s.t_start) := by
  unfold record_event
  simp only [hq, hd, Bool.true_eq_false, if_false, hp, ite_false, ne_eq,
    not_true_eq_false, not_false_eq_true]
  rw [if_neg (by omega)]
  by_cases hts : s.t_start = 0 <;>
    simp [hts, sinkBytes_add_byte, sinkBytes_command, sinkBytes_delta_time,
      last_tick_add_byte, last_tick_command, last_tick_delta_time,
      last_command_delta_time, List.append_assoc]

/-- Witness for claim C10: Controller14 on channel 2, `param = 0x25`,
`value = 300`, at tick 7 with origin 5: a single sub-message, the low
seven value bits absent. -/
theorem control14_msb_only_witness :
    sinkBytes (record_event ⟨5, initTrack⟩
        ⟨7, true, 0, SeqEventData.control14 2 0x25 300⟩).track
        = [0x02, 0xb2, 0x25, 0x02]
      ∧ (record_event ⟨5, initTrack⟩
          ⟨7, true, 0, SeqEventData.control14 2 0x25 300⟩).track.last_tick = 2 := by
  obtain ⟨h1, h2⟩ := control14_msb_only ⟨5, initTrack⟩
    ⟨7, true, 0, SeqEventData.control14 2 0x25 300⟩ 2 0x25 300 rfl rfl rfl (by decide)
  exact ⟨h1.trans (by decide), h2.trans (by decide)⟩

/-- Counterexample to claim C5 as stated: when the first event carries
tick 0, the sentinel `t_start == 0` still reads "unset", so the second
event (tick 100) re-captures the origin: afterwards `t_start = 100`, not
the first event's tick 0, and the second event's delta bytes are `[0x00]`
rather than the `var_bytes 100 = [0x64]` that computing its delta against
the first event's tick as origin would give. -/
theorem origin_recapture_counterexample :
    (record_event (record_event initRecState ⟨0, true, 0, SeqEventData.noteon 0 60 100⟩)
        ⟨100, true, 0, SeqEventData.noteon 0 62 100⟩).t_start = 100
      ∧ (⟨0, true, 0, SeqEventData.noteon 0 60 100⟩ : snd_seq_event).tick = 0
      ∧ sinkBytes (record_event (record_event initRecState ⟨0, true, 0, SeqEventData.noteon 0 60 100⟩)
          ⟨100, true, 0, SeqEventData.noteon 0 62 100⟩).track
        = [0x00, 0x90, 0x3c, 0x64, 0x00, 0x3e, 0x64]
      ∧ sinkBytes (record_event (record_event initRecState ⟨0, true, 0, SeqEventData.noteon 0 60 100⟩)
          ⟨100, true, 0, SeqEventData.noteon 0 62 100⟩).track
        ≠ sinkBytes (record_event initRecState ⟨0, true, 0, SeqEventData.noteon 0 60 100⟩).track
          ++ var_bytes (max 0 (((100 : Int) - 0)
              - (record_event initRecState
                  ⟨0, true, 0, SeqEventData.noteon 0 60 100⟩).track.last_tick))
          ++ [0x3e &&& 0x7f] ++ [0x64 &&& 0x7f] := by
  decide

/-- Claim C5 amended: a queue-timestamped event processed while
`t_start = 0` — in particular the first event overall, whatever its
destination port — has its tick captured as the time origin, but a first
event carrying tick 0 leaves the sentinel at 0 and a later nonzero-tick
event re-captures the origin; once `t_start` is nonzero it is stable and
every subsequent event's delta is computed from `tick - t_start`. -/
theorem origin_capture_amended (s : RecState) (ev : snd_seq_event)
    (hq : ev.queue_ok = true) :
    (s.t_start = 0 → (record_event s ev).t_start = ev.tick)
      ∧ (s.t_start ≠ 0 → (record_event s ev).t_start = s.t_start)
      ∧ (s.t_start ≠ 0 →
          sinkBytes (record_event s ev).track = sinkBytes s.track
            ∨ ∃ rest, sinkBytes (record_event s ev).track
                = sinkBytes s.track
                  ++ var_bytes (max 0 ((ev.tick - s.t_start) - s.track.last_tick))
                  ++ rest) := by
  refine ⟨?_, ?_, ?_⟩
  · intro h0
    unfold record_event
    simp only [hq, Bool.true_eq_false, if_false, h0, ite_true, if_pos]
    split_ifs with hp
    · rfl
    · cases ev.data with
      | sysex payload => cases payload <;> rfl
      | noteon channel note velocity => rfl
      | noteoff channel note velocity => rfl
      | keypress channel note velocity => rfl
      | controller channel param value => rfl
      | pgmchange channel value => rfl
      | chanpress channel value => rfl
      | pitchbend channel value => rfl
      | control14 channel param value => rfl
      | nonregparam channel param value => rfl
      | regparam channel param value => rfl
      | other => rfl
  · intro hts
    unfold record_event
    simp only [hq, Bool.true_eq_false, if_false]
    rw [if_neg hts]
    split_ifs with hp
    · rfl
    · cases ev.data with
      | sysex payload => cases payload <;> rfl
      | noteon channel note velocity => rfl
      | noteoff channel note velocity => rfl
      | keypress channel note velocity => rfl
      | controller channel param value => rfl
      | pgmchange channel value => rfl
      | chanpress channel value => rfl
      | pitchbend channel value => rfl
      | control14 channel param value => rfl
      | nonregparam channel param value => rfl
      | regparam channel param value => rfl
      | other => rfl
  · intro hts
    unfold record_event
    simp only [hq, Bool.true_eq_false, if_false]
    rw [if_neg hts]
    by_cases hp : ev.dest_port = 0
    · rw [if_neg (by simp [hp])]
      cases ev.data with
      | noteon channel note velocity =>
        right
        exact ⟨(if 0x90 ||| (channel &&& 0xf) = s.track.last_command then []
            else [0x90 ||| (channel &&& 0xf)]) ++ [note &&& 0x7f] ++ [velocity &&& 0x7f],
          by simp [sinkBytes_add_byte, sinkBytes_command, sinkBytes_delta_time,
            last_command_delta_time, List.append_assoc]⟩
      | noteoff channel note velocity =>
        right
        exact ⟨(if 0x80 ||| (channel &&& 0xf) = s.track.last_command then []
            else [0x80 ||| (channel &&& 0xf)]) ++ [note &&& 0x7f] ++ [velocity &&& 0x7f],
          by simp [sinkBytes_add_byte, sinkBytes_command, sinkBytes_delta_time,
            last_command_delta_time, List.append_assoc]⟩
      | keypress channel note velocity =>
        right
        exact ⟨(if 0xa0 ||| (channel &&& 0xf) = s.track.last_command then []
            else [0xa0 ||| (channel &&& 0xf)]) ++ [note &&& 0x7f] ++ [velocity &&& 0x7f],
          by simp [sinkBytes_add_byte, sinkBytes_command, sinkBytes_delta_time,
            last_command_delta_time, List.append_assoc]⟩
      | controller channel param value =>
        right
        exact ⟨(if 0xb0 ||| (channel &&& 0xf) = s.track.last_command then []
            else [0xb0 ||| (channel &&& 0xf)]) ++ [param &&& 0x7f] ++ [(value % 0x80).toNat],
          by simp [sinkBytes_add_byte, sinkBytes_command, sinkBytes_delta_time,
            last_command_delta_time, List.append_assoc]⟩
      | pgmchange channel value =>
        right
        exact ⟨(if 0xc0 ||| (channel &&& 0xf) = s.track.last_command then []
            else [0xc0 ||| (channel &&& 0xf)]) ++ [(value % 0x80).toNat],
          by simp [sinkBytes_add_byte, sinkBytes_command, sinkBytes_delta_time,
            last_command_delta_time, List.append_assoc]⟩
      | chanpress channel value =>
        right
        exact ⟨(if 0xd0 ||| (channel &&& 0xf) = s.track.last_command then []
            else [0xd0 ||| (channel &&& 0xf)]) ++ [(value % 0x80).toNat],
          by simp [sinkBytes_add_byte, sinkBytes_command, sinkBytes_delta_time,
            last_command_delta_time, List.append_assoc]⟩
      | pitchbend channel value =>
        right
        exact ⟨(if 0xe0 ||| (channel &&& 0xf) = s.track.last_command then []
            else [0xe0 ||| (channel &&& 0xf)]) ++ [((value + 8192) % 0x80).toNat]
            ++ [(((value + 8192).fdiv (2 ^ 7)) % 0x80).toNat],
          by simp [sinkBytes_add_byte, sinkBytes_command, sinkBytes_delta_time,
            last_command_delta_time, List.append_assoc]⟩
      | control14 channel param value =>
        right
        refine ⟨(if 0xb0 ||| (channel &&& 0xf) = s.track.last_command then []
            else [0xb0 ||| (channel &&& 0xf)]) ++ [param &&& 0x7f]
            ++ [((value.fdiv (2 ^ 7)) % 0x80).toNat]
            ++ (if param &&& 0x7f < 0x20 then
                [0x00] ++ [(param &&& 0x7f) + 0x20] ++ [(value % 0x80).toNat]
              else []), ?_⟩
        by_cases hpp : param &&& 0x7f < 0x20 <;>
          simp [hpp, sinkBytes_add_byte, sinkBytes_command, sinkBytes_delta_time,
            last_tick_add_byte, last_tick_command, last_tick_delta_time,
            last_command_delta_time, var_bytes_zero, List.append_assoc]
      | nonregparam channel param value =>
        right
        exact ⟨(if 0xb0 ||| (channel &&& 0xf) = s.track.last_command then []
            else [0xb0 ||| (channel &&& 0xf)]) ++ [0x62] ++ [param &&& 0x7f]
            ++ [0x00] ++ [0x63] ++ [(param >>> 7) &&& 0x7f]
            ++ [0x00] ++ [0x06] ++ [((value.fdiv (2 ^ 7)) % 0x80).toNat]
            ++ [0x00] ++ [0x26] ++ [(value % 0x80).toNat],
          by simp [sinkBytes_add_byte, sinkBytes_command, sinkBytes_delta_time,
            last_tick_add_byte, last_tick_command, last_tick_delta_time,
            last_command_delta_time, var_bytes_zero, List.append_assoc]⟩
      | regparam channel param value =>
        right
        exact ⟨(if 0xb0 ||| (channel &&& 0xf) = s.track.last_command then []
            else [0xb0 ||| (channel &&& 0xf)]) ++ [0x64] ++ [param &&& 0x7f]
            ++ [0x00] ++ [0x65] ++ [(param >>> 7) &&& 0x7f]
            ++ [0x00] ++ [0x06] ++ [((value.fdiv (2 ^ 7)) % 0x80).toNat]
            ++ [0x00] ++ [0x26] ++ [(value % 0x80).toNat],
          by simp [sinkBytes_add_byte, sinkBytes_command, sinkBytes_delta_time,
            last_tick_add_byte, last_tick_command, last_tick_delta_time,
            last_command_delta_time, var_bytes_zero, List.append_assoc]⟩
      | sysex payload =>
        cases payload with
        | nil => left; rfl
        | cons b rest =>
          right
          exact ⟨(if (if b = 0xf0 then 0xf0 else 0xf7) = s.track.last_command then []
              else [if b = 0xf0 then 0xf0 else 0xf7])
              ++ var_bytes ((b :: rest).length : Int) ++ (b :: rest),
            by simp [sinkBytes_add_byte, sinkBytes_command, sinkBytes_delta_time,
              sinkBytes_var_value, sinkBytes_foldl_add_byte,
              last_command_delta_time, List.append_assoc]⟩
      | other => left; rfl
    · rw [if_pos (by simp [hp])]
      left
      rfl

/-- Witness for the amended claim C5: an event at tick 9 addressed to
destination port 3 still captures the origin from the unset state, and
from a nonzero origin the state is stable. -/
theorem origin_capture_amended_witness :
    (initRecState.t_start = 0 →
        (record_event initRecState ⟨9, true, 3, SeqEventData.noteon 0 60 100⟩).t_start = 9)
      ∧ (initRecState.t_start ≠ 0 →
          (record_event initRecState ⟨9, true, 3, SeqEventData.noteon 0 60 100⟩).t_start
            = initRecState.t_start)
      ∧ (initRecState.t_start ≠ 0 →
          sinkBytes (record_event initRecState
              ⟨9, true, 3, SeqEventData.noteon 0 60 100⟩).track
            = sinkBytes initRecState.track
          ∨ ∃ rest, sinkBytes (record_event initRecState
                ⟨9, true, 3, SeqEventData.noteon 0 60 100⟩).track
              = sinkBytes initRecState.track
                ++ var_bytes (max 0 ((9 - initRecState.t_start)
                    - initRecState.track.last_tick))
                ++ rest) := by
  exact origin_capture_amended initRecState ⟨9, true, 3, SeqEventData.noteon 0 60 100⟩ rfl

end Arecordmidi
